import Mathlib

/-!
Verification of the panel-framework contact surface of
`industry-themed-markdown-panels`.

The development shallowly embeds:
* the mock event bus built by `createMockEvents` (src/mocks/panelContext.tsx),
  with JavaScript `Map`/`Set` semantics made explicit (a `Set` entry deleted
  during iteration is tombstoned, `forEach` walks the live entry list);
* the mock slice store built by `createMockContext` and its `getSlice`;
* the local state transitions of the exported `MarkdownPanel` component
  (src/panels/MarkdownPanel.tsx): the `file:opened` and
  `markdown-panel:set-preferences` handlers, the font-scale buttons and the
  view-mode toggle;
* the `filePath`-prop effect of `MarkdownPanel` with the `typeof ... ===
  'function'` capability probe;
* the declarative tool records of src/tools.ts (`markdownPanelTools`).

Handlers are identified by numeric ids; the behaviour of a handler body is a
parameter (`HandlerBeh`): a list of unsubscribe operations it performs plus a
flag saying whether it throws.  JavaScript numbers that only ever hold the
font scale are embedded as rationals.
-/

namespace MarkdownPanels

/-- Shape of a `PanelEvent` (src/types): `type` discriminator, `source`,
`timestamp`, and a payload, here abstracted to an identity token so that
"the exact event object" is expressible. -/
structure PanelEvent where
  type : String
  source : String
  timestamp : Nat
  payloadId : Nat
deriving DecidableEq

/-- An operation a handler body may perform on the bus while it runs:
unsubscribing a handler (its own registration or another one).  This is the
only bus mutation the claims exercise during dispatch. -/
inductive BusOp where
  | unsub (t : String) (h : Nat)
deriving DecidableEq

/-- Behaviour of a handler body: the bus operations it performs, and whether
it then raises an exception. -/
structure HandlerBeh where
  ops : List BusOp
  throws : Bool

/-- One entry of a JavaScript `Set` of handlers: the handler id and a liveness
flag.  `Set.prototype.delete` empties the entry rather than splicing it, which
is what makes iteration sound under concurrent removal; we model the emptied
slot as `(id, false)`. -/
abbrev EntryList := List (Nat × Bool)

/-- The `handlers` map of `createMockEvents`: `Map<string, Set<handler>>`,
insertion ordered. -/
abbrev Bus := List (String × EntryList)

/-- JavaScript `Map.prototype.get` on a string-keyed map embedded as an
insertion-ordered association list. -/
def jsMapGet {α : Type} (m : List (String × α)) (k : String) : Option α :=
  (m.find? (fun e => e.1 == k)).map (·.2)

/-- JavaScript `Map.prototype.set`: update the existing key in place (keeping its
position), else append. -/
def jsMapSet {α : Type} (m : List (String × α)) (k : String) (v : α) :
    List (String × α) :=
  if m.any (fun e => e.1 == k) then
    m.map (fun e => if e.1 == k then (k, v) else e)
  else m ++ [(k, v)]

/-- Lookup `handlers.get(t)` : `Map.prototype.get`. -/
def getEntries (m : Bus) (t : String) : Option EntryList :=
  jsMapGet m t

/-- The `handlers.get(t)` read, with a missing key treated as the empty
handler set. -/
def entriesOf (m : Bus) (t : String) : EntryList :=
  (getEntries m t).getD []

/-- Write `handlers.set(t, es)` : `Map.prototype.set`. -/
def setEntries (m : Bus) (t : String) (es : EntryList) : Bus :=
  jsMapSet m t es

/-- Does the set hold handler `h` (a live entry with id `h`)? -/
def liveMem (es : EntryList) (h : Nat) : Bool :=
  es.any (fun e => e.1 == h && e.2)

/-- JavaScript `Set.prototype.add h` : no-op when `h` is already live, else
append. -/
def setAdd (es : EntryList) (h : Nat) : EntryList :=
  if liveMem es h then es else es ++ [(h, true)]

/-- JavaScript `Set.prototype.delete h` : tombstone the live entry holding
`h`. -/
def setDelete (es : EntryList) (h : Nat) : EntryList :=
  es.map (fun e => if e.1 == h && e.2 then (e.1, false) else e)

/-- The ids of the handlers currently in the set, in iteration order. -/
def aliveIds (es : EntryList) : List Nat :=
  (es.filter (·.2)).map (·.1)

/-- Is handler `h` currently subscribed to type `t` on bus `m`? -/
def aliveAt (m : Bus) (t : String) (h : Nat) : Bool :=
  liveMem (entriesOf m t) h

/-- The `on(type, handler)` method of `createMockEvents`:
`if (!handlers.has(type)) handlers.set(type, new Set());
handlers.get(type)!.add(handler)`. -/
def busOn (m : Bus) (t : String) (h : Nat) : Bus :=
  let m₁ := if (getEntries m t).isSome then m else setEntries m t []
  setEntries m₁ t (setAdd (entriesOf m₁ t) h)

/-- The `off(type, handler)` method of `createMockEvents`, and also the
cleanup closure
returned by `on`, both of which run
`handlers.get(type)?.delete(handler)`. -/
def busOff (m : Bus) (t : String) (h : Nat) : Bus :=
  match getEntries m t with
  | none => m
  | some es => setEntries m t (setDelete es h)

/-- Run one bus operation performed inside a handler body. -/
def applyOp (m : Bus) : BusOp → Bus
  | .unsub t h => busOff m t h

/-- Run a handler body's bus operations in order. -/
def applyOps (m : Bus) (ops : List BusOp) : Bus :=
  ops.foldl applyOp m

/-- The `eventHandlers.forEach((handler) => handler(event))` loop of `emit`.
`i` is the iterator position in the live entry list; the entry list is re-read
from the bus at every step because handler bodies mutate the very `Set` being
iterated.  Emptied (tombstoned) slots are skipped, exactly as a JavaScript
`Set` iterator skips entries emptied by `delete`.  An exception from a handler
propagates out of `forEach`, aborting the loop (`emit` has no per-handler
catch); the third component records that the emit threw.  The result also
carries the invocation log: which handler was called with which event. -/
def dispatchAux (beh : Nat → HandlerBeh) (ev : PanelEvent) :
    Nat → Nat → Bus → List (Nat × PanelEvent) →
      Bus × List (Nat × PanelEvent) × Bool
  | 0, _, m, log => (m, log, false)
  | fuel + 1, i, m, log =>
    match (entriesOf m ev.type)[i]? with
    | none => (m, log, false)
    | some e =>
      if e.2 then
        let b := beh e.1
        let log₁ := log ++ [(e.1, ev)]
        let m₁ := applyOps m b.ops
        if b.throws then (m₁, log₁, true)
        else dispatchAux beh ev fuel (i + 1) m₁ log₁
      else dispatchAux beh ev fuel (i + 1) m log

/-- The `emit(event)` method of `createMockEvents`: look up the handler set
for
`event.type` and, when present, run the `forEach` loop over it.  Unsubscribe
operations never change the length of an entry list (deletion tombstones in
place), so a fuel equal to the entry-list length drives the iterator across
every slot. -/
def busEmit (beh : Nat → HandlerBeh) (m : Bus) (ev : PanelEvent) :
    Bus × List (Nat × PanelEvent) × Bool :=
  match getEntries m ev.type with
  | none => (m, [], false)
  | some es => dispatchAux beh ev es.length 0 m []

/-- A handler whose body does nothing to the bus and returns normally. -/
def pureBeh : Nat → HandlerBeh := fun _ => ⟨[], false⟩

/-- A fresh bus (from `createMockEvents`: `new Map()`) after a sequence of
`on(type, handler)` registrations. -/
def buildBus (regs : List (String × Nat)) : Bus :=
  regs.foldl (fun m r => busOn m r.1 r.2) []

/-- The handlers registered for type `t` in a registration sequence, in
order, duplicates included. -/
def regIds (regs : List (String × Nat)) (t : String) : List Nat :=
  (regs.filter (fun r => r.1 == t)).map (·.2)

/-- Keep the first occurrence of each id, dropping ids already `seen` — the
order in which a JavaScript `Set` ends up holding a sequence of added
elements. -/
def firstDedupAux : List Nat → List Nat → List Nat
  | _, [] => []
  | seen, h :: t =>
    if h ∈ seen then firstDedupAux seen t
    else h :: firstDedupAux (h :: seen) t

/-- First-occurrence deduplication of a list of handler ids. -/
def firstDedup (l : List Nat) : List Nat :=
  firstDedupAux [] l

/-- Verification relation (not part of the source): how one `Set` entry can
evolve during a dispatch pass.  Unsubscription never moves an entry and never
revives it: the id is fixed, and an entry live afterwards was live before. -/
def entryLe (e' e : Nat × Bool) : Prop :=
  e'.1 = e.1 ∧ (e'.2 = true → e.2 = true)

/-! ### Mock slice store (`createMockContext`) -/

/-- The `slices` map of `createMockContext`: `Map<string, slice>`, with slice
objects abstracted to identity tokens. -/
abbrev SliceStore := List (String × Nat)

/-- JavaScript `Map.prototype.set` on the slice store. -/
def mapSet (m : SliceStore) (k : String) (v : Nat) : SliceStore :=
  jsMapSet m k v

/-- JavaScript `Map.prototype.get` on the slice store. -/
def mapGet (m : SliceStore) (k : String) : Option Nat :=
  jsMapGet m k

/-- Identity token of the git slice object installed by
`createMockContext` (`slices.set('git', {...})`). -/
def gitSliceId : Nat := 0

/-- The store right after `createMockContext` ran its constructor body. -/
def initialSlices : SliceStore := mapSet [] "git" gitSliceId

/-- The store after the creation-time `set('git', …)` followed by an
arbitrary sequence of further `slices.set` calls. -/
def buildSlices (sets : List (String × Nat)) : SliceStore :=
  sets.foldl (fun m s => mapSet m s.1 s.2) initialSlices

/-- The `getSlice(name)` method of `createMockContext`:
`return slices.get(name)`. -/
def getSlice (m : SliceStore) (name : String) : Option Nat :=
  mapGet m name

/-- The last value stored under `name` by a sequence of `set` calls, `none`
when the name was never set. -/
def lastStored : List (String × Nat) → String → Option Nat
  | [], _ => none
  | e :: rest, name =>
    match lastStored rest name with
    | some v => some v
    | none => if e.1 == name then some e.2 else none

/-! ### MarkdownPanel local state -/

/-- The `viewMode` state: `'document' | 'book'`. -/
inductive ViewMode where
  | document
  | book
deriving DecidableEq

/-- The local view state of the exported `MarkdownPanel`
(src/panels/MarkdownPanel.tsx): `viewMode`, `currentSlide`,
`fontSizeScale`, `preferencesLoaded`. -/
structure PanelState where
  viewMode : ViewMode
  currentSlide : Nat
  fontSizeScale : ℚ
  preferencesLoaded : Bool
deriving DecidableEq

/-- Initial state of the `useState` hooks:
`'document'`, `0`, `1.0`, `false`. -/
def initialPanelState : PanelState :=
  { viewMode := .document
    currentSlide := 0
    fontSizeScale := 1
    preferencesLoaded := false }

/-- Payload of a `markdown-panel:set-preferences` event:
`{ viewMode?: 'document' | 'book'; fontSizeScale?: number }`. -/
structure PreferencesPayload where
  viewMode : Option ViewMode
  fontSizeScale : Option ℚ

/-- The state-changing inputs the exported `MarkdownPanel` responds to: the
two subscribed events and the three user interactions. -/
inductive PanelInput where
  | fileOpened (ev : PanelEvent)
  | setPreferences (p : PreferencesPayload)
  | fontSizeIncrease
  | fontSizeDecrease
  | viewModeChange (mode : ViewMode)

/-- State transition of the exported `MarkdownPanel`, handler by handler:
* `file:opened` → `setCurrentSlide(0)` (and nothing else);
* `markdown-panel:set-preferences` → conditionally `setViewMode` /
  `setFontSizeScale` from the payload, then `setPreferencesLoaded(true)`;
* `handleFontSizeIncrease` → `Math.min(prev + 0.1, 3.0)`;
* `handleFontSizeDecrease` → `Math.max(prev - 0.1, 0.5)`;
* `handleViewModeChange(mode)` → `setViewMode(mode); setCurrentSlide(0)`. -/
def panelStep (s : PanelState) : PanelInput → PanelState
  | .fileOpened _ => { s with currentSlide := 0 }
  | .setPreferences p =>
    let s₁ :=
      match p.viewMode with
      | some vm => { s with viewMode := vm }
      | none => s
    let s₂ :=
      match p.fontSizeScale with
      | some fs => { s₁ with fontSizeScale := fs }
      | none => s₁
    { s₂ with preferencesLoaded := true }
  | .fontSizeIncrease =>
    { s with fontSizeScale := min (s.fontSizeScale + 1/10) 3 }
  | .fontSizeDecrease =>
    { s with fontSizeScale := max (s.fontSizeScale - 1/10) (1/2) }
  | .viewModeChange mode =>
    { s with viewMode := mode, currentSlide := 0 }

/-- Font-scale state after a sequence of clicks on the increase (`true`) /
decrease (`false`) buttons, starting from the initial state. -/
def runFontOps (ops : List Bool) : ℚ :=
  (ops.foldl
    (fun s b =>
      panelStep s (if b then .fontSizeIncrease else .fontSizeDecrease))
    initialPanelState).fontSizeScale

/-! ### Tool records and subscriptions -/

/-- The `tool_call_template.event_type` of each tool in `markdownPanelTools`
(src/tools.ts: `scrollToSectionTool`, `navigateSlideTool`,
`changeFontSizeTool`). -/
def markdownToolEventTypes : List String :=
  [ "industry-theme.markdown-panels:scroll-to-section"
  , "industry-theme.markdown-panels:navigate-slide"
  , "industry-theme.markdown-panels:change-font-size" ]

/-- Every event type the exported `MarkdownPanel` subscribes to with
`events.on` (src/panels/MarkdownPanel.tsx lines 93 and 121). -/
def markdownPanelSubscribedTypes : List String :=
  [ "markdown-panel:set-preferences"
  , "file:opened" ]

/-! ### The `filePath` prop effect -/

/-- A JavaScript value read off the `actions` object, as far as a `typeof`
probe distinguishes it: absent/`undefined`, a function, or some other
value. -/
inductive JSValue where
  | undefinedV
  | funcV
  | otherV
deriving DecidableEq

/-- The `actions` object as the effect sees it: possibly nullish (the source
guards with `(actions as any)?.`), with a `setActiveFile` field that may
hold anything. -/
structure ActionsObject where
  setActiveFile : JSValue

/-- Reading `(actions as any)?.setActiveFile` : optional chaining yields
`undefined` on a nullish receiver. -/
def readSetActiveFile : Option ActionsObject → JSValue
  | none => .undefinedV
  | some a => a.setActiveFile

/-- Calling a JavaScript value: calling a non-function raises a
`TypeError`; calling a function performs the call, recorded by its
argument. -/
def callJS (v : JSValue) (arg : String) : Except String (List String) :=
  match v with
  | .funcV => .ok [arg]
  | _ => .error "TypeError: not a function"

/-- The `filePath` effect of `MarkdownPanel`:
`if (filePathProp) { const setActiveFile = (actions as any)?.setActiveFile;
if (typeof setActiveFile === 'function') setActiveFile(filePathProp); }`.
The result is the list of calls performed, or a raised error. -/
def filePathEffect (actions : Option ActionsObject)
    (filePathProp : Option String) : Except String (List String) :=
  match filePathProp with
  | none => .ok []
  | some fp =>
    if fp == "" then .ok []
    else
      let setActiveFile := readSetActiveFile actions
      if setActiveFile == .funcV then callJS setActiveFile fp
      else .ok []

/-! ### Concrete instances used by the counterexample-style theorems -/

/-- Behaviour family where handler 1 throws and everyone else is pure. -/
def throwing₁ : Nat → HandlerBeh :=
  fun h => if h == 1 then ⟨[], true⟩ else ⟨[], false⟩

/-- Behaviour family where handler 1 unsubscribes handler 3 from `"t"` and
nobody throws. -/
def unsubbing₁ : Nat → HandlerBeh :=
  fun h => ⟨if h == 1 then [.unsub "t" 3] else [], false⟩

/-- A bus with handlers 1 and 2 subscribed to `"t"`, in that order. -/
def bus₁₂ : Bus := buildBus [("t", 1), ("t", 2)]

/-- A bus with handlers 1, 2 and 3 subscribed to `"t"`, in that order. -/
def bus₁₂₃ : Bus := buildBus [("t", 1), ("t", 2), ("t", 3)]

/-- A sample event of type `"t"`. -/
def evT : PanelEvent := ⟨"t", "host", 1000, 0⟩

end MarkdownPanels

namespace MarkdownPanels

/-- Claim C2 (refuted; evidence for the code-bug verdict): none of the three
`tool_call_template.event_type` strings of `markdownPanelTools` is among the
event types the owning `MarkdownPanel` subscribes to via `events.on`, so
emitting a tool's event type reaches no handler of the panel. -/
theorem tool_event_types_not_subscribed :
    markdownToolEventTypes.all
      (fun t => !(markdownPanelSubscribedTypes.contains t)) = true := by
  decide

/-- Claim C1 (refuted; evidence for the code-bug verdict): on a bus where
handlers 1 and 2 are both subscribed to `"t"` and handler 1 throws,
`emit` of an event of type `"t"` invokes handler 1, propagates the
exception, and never invokes the still-subscribed handler 2 — the throwing
handler aborts the fan-out instead of being isolated. -/
theorem throwing_handler_aborts_fanout :
    aliveAt bus₁₂ "t" 2 = true ∧
    (busEmit throwing₁ bus₁₂ evT).2.2 = true ∧
    (busEmit throwing₁ bus₁₂ evT).2.1 = [(1, evT)] ∧
    (busEmit throwing₁ bus₁₂ evT).2.1.count (2, evT) = 0 := by
  refine ⟨by decide, by decide, by decide, by decide⟩

/-- Claim C4: delivering a `file:opened` event to the exported
`MarkdownPanel`'s handler resets `currentSlide` to `0` and leaves both the
view mode and the font scale untouched. -/
theorem fileOpened_resets_slide_preserves_prefs
    (s : PanelState) (ev : PanelEvent) :
    (panelStep s (.fileOpened ev)).currentSlide = 0 ∧
    (panelStep s (.fileOpened ev)).viewMode = s.viewMode ∧
    (panelStep s (.fileOpened ev)).fontSizeScale = s.fontSizeScale := by
  exact ⟨rfl, rfl, rfl⟩

/-- Claim C9: whatever the `actions` object holds under `setActiveFile`
(absent, non-function, or a function) and whatever the `filePath` prop is,
the effect never raises; it either performs no call, or `setActiveFile` is a
function and the single call it performs passes exactly the `filePath`
prop. -/
theorem filePathEffect_no_crash (actions : Option ActionsObject)
    (fp : Option String) :
    (filePathEffect actions fp).isOk = true ∧
    (filePathEffect actions fp = .ok [] ∨
      (readSetActiveFile actions = .funcV ∧
        ∃ s, fp = some s ∧ filePathEffect actions fp = .ok [s])) := by
  cases fp with
  | none => exact ⟨rfl, .inl rfl⟩
  | some s =>
    by_cases hs : s == ""
    · refine ⟨?_, .inl ?_⟩ <;> simp [filePathEffect, hs, Except.isOk, Except.toBool]
    · by_cases hf : readSetActiveFile actions = JSValue.funcV
      · refine ⟨?_, .inr ⟨hf, s, rfl, ?_⟩⟩ <;>
          simp [filePathEffect, hs, hf, callJS, Except.isOk, Except.toBool]
      · have hcase : filePathEffect actions (some s) = .ok [] := by
          simp [filePathEffect, hs, beq_iff_eq, hf]
        exact ⟨by rw [hcase]; rfl, .inl hcase⟩

/-! ### Font-scale bounds (C10) -/

lemma fontOps_bounds (ops : List Bool) :
    ∀ s : PanelState, 1/2 ≤ s.fontSizeScale → s.fontSizeScale ≤ 3 →
      1/2 ≤ (ops.foldl
          (fun s b =>
            panelStep s (if b then .fontSizeIncrease else .fontSizeDecrease))
          s).fontSizeScale ∧
        (ops.foldl
          (fun s b =>
            panelStep s (if b then .fontSizeIncrease else .fontSizeDecrease))
          s).fontSizeScale ≤ 3 := by
  induction ops with
  | nil => exact fun s h₁ h₂ => ⟨h₁, h₂⟩
  | cons b rest ih =>
    intro s h₁ h₂
    cases b with
    | true =>
      refine ih _ ?_ ?_ <;> simp only [panelStep]
      · exact le_min (by linarith) (by norm_num)
      · exact min_le_right _ _
    | false =>
      refine ih _ ?_ ?_ <;> simp only [panelStep]
      · exact le_max_right _ _
      · exact max_le (by linarith) (by norm_num)

/-- Claim C10: starting from the initial font scale `1`, every sequence of
increase/decrease clicks keeps `fontSizeScale` in the closed interval
`[1/2, 3]`; and the `markdown-panel:set-preferences` handler writes the
payload's `fontSizeScale` through without this clamping. -/
theorem fontScale_bounded (ops : List Bool) :
    (1/2 ≤ runFontOps ops ∧ runFontOps ops ≤ 3) ∧
    ∀ (s : PanelState) (q : ℚ),
      (panelStep s (.setPreferences ⟨none, some q⟩)).fontSizeScale = q := by
  refine ⟨?_, fun s q => rfl⟩
  exact fontOps_bounds ops initialPanelState (by norm_num [initialPanelState]) (by norm_num [initialPanelState])


/-! ### JavaScript `Map` lemmas -/

lemma jsMapGet_cons {α : Type} (e : String × α) (rest : List (String × α))
    (k : String) :
    jsMapGet (e :: rest) k =
      if e.1 == k then some e.2 else jsMapGet rest k := by
  unfold jsMapGet
  cases he : e.1 == k with
  | true =>
    rw [@List.find?_cons_of_pos _ (fun x => x.1 == k) e rest he]
    simp
  | false =>
    rw [@List.find?_cons_of_neg _ (fun x => x.1 == k) e rest (by simp [he])]
    simp

lemma jsMapGet_map_update_self {α : Type} (k : String) (v : α) :
    ∀ m : List (String × α), m.any (fun e => e.1 == k) = true →
      jsMapGet (m.map fun e => if e.1 == k then (k, v) else e) k = some v := by
  intro m
  induction m with
  | nil => intro h; exact absurd h (by simp)
  | cons e rest ih =>
    intro hany
    rw [List.map_cons, jsMapGet_cons]
    cases he : e.1 == k with
    | true => simp
    | false =>
      have hrest : rest.any (fun e => e.1 == k) = true := by
        simpa [List.any_cons, he] using hany
      simpa [he] using ih hrest

lemma jsMapGet_map_update_other {α : Type} (k k' : String) (v : α)
    (hk : k' ≠ k) :
    ∀ m : List (String × α),
      jsMapGet (m.map fun e => if e.1 == k then (k, v) else e) k' =
        jsMapGet m k' := by
  have hkk : (k == k') = false := by
    simp only [beq_eq_false_iff_ne, ne_eq]
    exact fun h => hk h.symm
  intro m
  induction m with
  | nil => rfl
  | cons e rest ih =>
    rw [List.map_cons, jsMapGet_cons, jsMapGet_cons]
    cases he : e.1 == k with
    | true =>
      have he' : e.1 = k := by simpa using he
      simpa [he', hkk] using ih
    | false =>
      cases het : e.1 == k' with
      | true => simp [het]
      | false => simpa [het] using ih

lemma jsMapGet_append_single_self {α : Type} (k : String) (v : α) :
    ∀ m : List (String × α), m.any (fun e => e.1 == k) = false →
      jsMapGet (m ++ [(k, v)]) k = some v := by
  intro m
  induction m with
  | nil =>
    intro _
    rw [List.nil_append, jsMapGet_cons]
    simp
  | cons e rest ih =>
    intro hany
    cases he : e.1 == k with
    | true => rw [List.any_cons, he] at hany; simp at hany
    | false =>
      have hrest : rest.any (fun e => e.1 == k) = false := by
        simpa [List.any_cons, he] using hany
      rw [List.cons_append, jsMapGet_cons]
      simpa [he] using ih hrest

lemma jsMapGet_append_single_other {α : Type} (k k' : String) (v : α)
    (hk : k' ≠ k) :
    ∀ m : List (String × α),
      jsMapGet (m ++ [(k, v)]) k' = jsMapGet m k' := by
  have hkk : (k == k') = false := by
    simp only [beq_eq_false_iff_ne, ne_eq]
    exact fun h => hk h.symm
  intro m
  induction m with
  | nil =>
    rw [List.nil_append, jsMapGet_cons]
    simp [hkk, jsMapGet]
  | cons e rest ih =>
    rw [List.cons_append, jsMapGet_cons, jsMapGet_cons]
    cases het : e.1 == k' with
    | true => simp
    | false => simpa using ih

lemma jsMapGet_set_self {α : Type} (m : List (String × α)) (k : String)
    (v : α) : jsMapGet (jsMapSet m k v) k = some v := by
  unfold jsMapSet
  cases hany : m.any (fun e => e.1 == k) with
  | true => simpa using jsMapGet_map_update_self k v m hany
  | false => simpa using jsMapGet_append_single_self k v m hany

lemma jsMapGet_set_other {α : Type} (m : List (String × α)) (k k' : String)
    (v : α) (hk : k' ≠ k) :
    jsMapGet (jsMapSet m k v) k' = jsMapGet m k' := by
  unfold jsMapSet
  cases hany : m.any (fun e => e.1 == k) with
  | true => simpa using jsMapGet_map_update_other k k' v hk m
  | false => simpa using jsMapGet_append_single_other k k' v hk m

lemma jsMapGet_set {α : Type} (m : List (String × α)) (k k' : String)
    (v : α) :
    jsMapGet (jsMapSet m k v) k' =
      if k' = k then some v else jsMapGet m k' := by
  by_cases hk : k' = k
  · subst hk; rw [if_pos rfl]; exact jsMapGet_set_self m k' v
  · rw [if_neg hk]; exact jsMapGet_set_other m k k' v hk

lemma any_key_map_update {α : Type} (k : String) (v : α) :
    ∀ m : List (String × α),
      ((m.map fun e => if e.1 == k then (k, v) else e).any
          fun e => e.1 == k) =
        m.any (fun e => e.1 == k) := by
  intro m
  induction m with
  | nil => rfl
  | cons e rest ih =>
    simp only [List.map_cons, List.any_cons]
    cases he : e.1 == k with
    | true => simp
    | false => simpa [he] using ih

lemma jsMapSet_set_same_key {α : Type} (m : List (String × α))
    (k : String) (v w : α) :
    jsMapSet (jsMapSet m k v) k w = jsMapSet m k w := by
  cases hany : m.any (fun e => e.1 == k) with
  | true =>
    have hstep : jsMapSet m k v =
        m.map fun e => if e.1 == k then (k, v) else e := by
      unfold jsMapSet; rw [if_pos hany]
    have hres : jsMapSet m k w =
        m.map fun e => if e.1 == k then (k, w) else e := by
      unfold jsMapSet; rw [if_pos hany]
    have hany₂ : ((m.map fun e => if e.1 == k then (k, v) else e).any
        fun e => e.1 == k) = true := by
      rw [any_key_map_update]; exact hany
    rw [hstep, hres]
    unfold jsMapSet
    rw [if_pos hany₂, List.map_map]
    refine List.map_congr_left ?_
    intro e _
    cases he : e.1 == k with
    | true => simp [Function.comp, he]
    | false => simp [Function.comp, he]
  | false =>
    have hall := List.any_eq_false.mp hany
    have hstep : jsMapSet m k v = m ++ [(k, v)] := by
      unfold jsMapSet; rw [if_neg (by simp [hany])]
    have hres : jsMapSet m k w = m ++ [(k, w)] := by
      unfold jsMapSet; rw [if_neg (by simp [hany])]
    have hany₂ : ((m ++ [(k, v)]).any fun e => e.1 == k) = true := by
      rw [List.any_append]; simp
    rw [hstep, hres]
    unfold jsMapSet
    rw [if_pos hany₂, List.map_append]
    have hmap : (m.map fun e => if e.1 == k then (k, w) else e) = m := by
      calc (m.map fun e => if e.1 == k then (k, w) else e)
          = m.map id := by
            refine List.map_congr_left ?_
            intro e hme
            have hne : (e.1 == k) = false := by
              cases hcase : e.1 == k with
              | true => exact absurd hcase (hall e hme)
              | false => rfl
            simp [hne]
        _ = m := List.map_id m
    rw [hmap]
    simp

/-! ### Slice store: `getSlice` returns the last value set (C8) -/

lemma mapGet_foldl_set (sets : List (String × Nat)) :
    ∀ (m : SliceStore) (name : String),
      mapGet (sets.foldl (fun m s => mapSet m s.1 s.2) m) name =
        match lastStored sets name with
        | some v => some v
        | none => mapGet m name := by
  induction sets with
  | nil => intro m name; rfl
  | cons s rest ih =>
    intro m name
    rw [List.foldl_cons, ih (mapSet m s.1 s.2) name]
    have hset : mapGet (mapSet m s.1 s.2) name =
        if name = s.1 then some s.2 else mapGet m name :=
      jsMapGet_set m s.1 name s.2
    cases hl : lastStored rest name with
    | some v => simp [lastStored, hl]
    | none =>
      by_cases hn : name = s.1
      · subst hn
        simp [lastStored, hl, hset]
      · have hn' : ¬s.1 = name := fun hcon => hn hcon.symm
        simp [lastStored, hl, hset, hn, hn', beq_iff_eq]

/-- Claim C8: on the store built by `createMockContext` (which installs the
git slice at creation) followed by any sequence of `slices.set` calls,
`getSlice(name)` returns exactly the last value stored under `name`, and
`none` (absent) for a name that was never stored. -/
theorem getSlice_returns_last_set (sets : List (String × Nat))
    (name : String) :
    getSlice (buildSlices sets) name =
      lastStored (("git", gitSliceId) :: sets) name := by
  unfold getSlice buildSlices
  rw [mapGet_foldl_set sets initialSlices name]
  have hinit : mapGet initialSlices name =
      if name = "git" then some gitSliceId else none := by
    unfold initialSlices mapSet mapGet
    rw [jsMapGet_set]
    by_cases hn : name = "git" <;> simp [hn, jsMapGet]
  cases hl : lastStored sets name with
  | some v => simp [lastStored, hl]
  | none =>
    rw [hinit]
    by_cases hn : name = "git"
    · subst hn
      simp [lastStored, hl]
    · have hn' : ¬("git" : String) = name := fun hcon => hn hcon.symm
      simp [lastStored, hl, hn, hn', beq_iff_eq]

/-! ### Bus lemmas for unsubscription (towards C7 and C3) -/

lemma entriesOf_setEntries_self (m : Bus) (t : String) (es : EntryList) :
    entriesOf (setEntries m t es) t = es := by
  unfold entriesOf getEntries setEntries
  rw [jsMapGet_set_self]
  rfl

lemma entriesOf_setEntries_other (m : Bus) (t t' : String) (es : EntryList)
    (h : t' ≠ t) :
    entriesOf (setEntries m t es) t' = entriesOf m t' := by
  unfold entriesOf getEntries setEntries
  rw [jsMapGet_set_other _ _ _ _ h]

lemma setDelete_idem (es : EntryList) (h : Nat) :
    setDelete (setDelete es h) h = setDelete es h := by
  unfold setDelete
  rw [List.map_map]
  refine List.map_congr_left ?_
  intro e _
  cases hc : e.1 == h && e.2 with
  | true => simp [Function.comp, hc]
  | false => simp [Function.comp, hc]

lemma liveMem_cons (e : Nat × Bool) (rest : EntryList) (x : Nat) :
    liveMem (e :: rest) x = ((e.1 == x && e.2) || liveMem rest x) := by
  simp [liveMem, List.any_cons]

lemma liveMem_setDelete (es : EntryList) (h x : Nat) :
    liveMem (setDelete es h) x = (liveMem es x && !(x == h)) := by
  induction es with
  | nil => simp [liveMem, setDelete]
  | cons e rest ih =>
    have hstep : setDelete (e :: rest) h =
        (if e.1 == h && e.2 then (e.1, false) else e) :: setDelete rest h := by
      simp [setDelete]
    rw [hstep, liveMem_cons, liveMem_cons, ih]
    cases hc : e.1 == h && e.2 with
    | true =>
      obtain ⟨h1b, h2⟩ := (Bool.and_eq_true _ _).mp hc
      have h1 : e.1 = h := by simpa using h1b
      cases hxh : x == h with
      | true => simp [hxh]
      | false =>
        have hx : x ≠ h := beq_eq_false_iff_ne.mp hxh
        have hex : (e.1 == x) = false := by
          rw [h1]
          exact beq_eq_false_iff_ne.mpr (fun hh => hx hh.symm)
        simp [hxh, hex]
    | false =>
      cases hd : e.1 == x && e.2 with
      | true =>
        obtain ⟨h1b, h2⟩ := (Bool.and_eq_true _ _).mp hd
        have hex : e.1 = x := by simpa using h1b
        have hxh : (x == h) = false := by
          cases hxh0 : x == h with
          | false => rfl
          | true =>
            have hx : x = h := by simpa using hxh0
            rw [hex, hx] at hc
            simp [h2] at hc
        simp [hd, hxh]
      | false => simp [hd]

lemma entriesOf_busOff_self (m : Bus) (t : String) (h : Nat) :
    entriesOf (busOff m t h) t = setDelete (entriesOf m t) h := by
  unfold busOff
  cases hg : getEntries m t with
  | none =>
    have hempty : entriesOf m t = [] := by unfold entriesOf; rw [hg]; rfl
    rw [hempty]
    rfl
  | some es =>
    have hes : entriesOf m t = es := by unfold entriesOf; rw [hg]; rfl
    rw [hes, entriesOf_setEntries_self]

lemma entriesOf_busOff_other (m : Bus) (t : String) (h : Nat) (t' : String)
    (hne : t' ≠ t) :
    entriesOf (busOff m t h) t' = entriesOf m t' := by
  unfold busOff
  cases hg : getEntries m t with
  | none => rfl
  | some es => rw [entriesOf_setEntries_other _ _ _ _ hne]

lemma busOff_idem (m : Bus) (t : String) (h : Nat) :
    busOff (busOff m t h) t h = busOff m t h := by
  cases hg : getEntries m t with
  | none =>
    have h1 : busOff m t h = m := by unfold busOff; rw [hg]
    rw [h1, h1]
  | some es =>
    have h1 : busOff m t h = setEntries m t (setDelete es h) := by
      unfold busOff; rw [hg]
    have hg2 : getEntries (setEntries m t (setDelete es h)) t =
        some (setDelete es h) := by
      unfold getEntries setEntries; rw [jsMapGet_set_self]
    rw [h1]
    unfold busOff
    rw [hg2]
    show setEntries (setEntries m t (setDelete es h)) t
        (setDelete (setDelete es h) h) = setEntries m t (setDelete es h)
    rw [setDelete_idem]
    unfold setEntries
    exact jsMapSet_set_same_key m t _ _

lemma aliveAt_busOff (m : Bus) (t : String) (h : Nat) (t' : String)
    (x : Nat) :
    aliveAt (busOff m t h) t' x =
      (aliveAt m t' x && !(t' == t && x == h)) := by
  by_cases ht : t' = t
  · subst ht
    unfold aliveAt
    rw [entriesOf_busOff_self, liveMem_setDelete]
    simp
  · unfold aliveAt
    rw [entriesOf_busOff_other _ _ _ _ ht]
    have hb : (t' == t) = false := by
      simpa [beq_eq_false_iff_ne] using ht
    simp [hb]

/-! ### Pure dispatch: `emit` with handlers that neither throw nor
unsubscribe -/

lemma dispatchAux_pure (ev : PanelEvent) :
    ∀ (fuel i : Nat) (m : Bus) (log : List (Nat × PanelEvent)),
      dispatchAux pureBeh ev fuel i m log =
        (m,
          log ++ ((((entriesOf m ev.type).drop i).take fuel).filter
            (·.2)).map (fun e => (e.1, ev)),
          false) := by
  intro fuel
  induction fuel with
  | zero => intro i m log; simp [dispatchAux]
  | succ fuel ih =>
    intro i m log
    cases hi : (entriesOf m ev.type)[i]? with
    | none =>
      have hlen : (entriesOf m ev.type).length ≤ i := by
        by_contra hlt
        push_neg at hlt
        rw [List.getElem?_eq_getElem hlt] at hi
        cases hi
      simp only [dispatchAux, hi]
      rw [List.drop_eq_nil_of_le hlen]
      simp
    | some e =>
      have hlt : i < (entriesOf m ev.type).length := by
        by_contra hge
        push_neg at hge
        rw [List.getElem?_eq_none hge] at hi
        cases hi
      have hget : (entriesOf m ev.type)[i] = e := by
        rw [List.getElem?_eq_getElem hlt] at hi
        exact Option.some_injective _ hi
      have hdrop : (entriesOf m ev.type).drop i =
          e :: (entriesOf m ev.type).drop (i + 1) := by
        rw [List.drop_eq_getElem_cons hlt, hget]
      simp only [dispatchAux, hi]
      cases he2 : e.2 with
      | true =>
        simp only [he2, if_true, pureBeh]
        rw [show applyOps m ([] : List BusOp) = m from rfl]
        simp only [Bool.false_eq_true, if_false]
        rw [ih (i + 1) m (log ++ [(e.1, ev)])]
        rw [hdrop, List.take_succ_cons, List.filter_cons]
        simp [he2]
      | false =>
        simp only [he2, Bool.false_eq_true, if_false]
        rw [ih (i + 1) m log]
        rw [hdrop, List.take_succ_cons, List.filter_cons]
        simp [he2]

lemma busEmit_pure (m : Bus) (ev : PanelEvent) :
    busEmit pureBeh m ev =
      (m, (aliveIds (entriesOf m ev.type)).map (fun h => (h, ev)), false) := by
  unfold busEmit
  cases hg : getEntries m ev.type with
  | none =>
    have hemp : entriesOf m ev.type = [] := by unfold entriesOf; rw [hg]; rfl
    simp [hemp, aliveIds]
  | some es =>
    have hes : entriesOf m ev.type = es := by unfold entriesOf; rw [hg]; rfl
    show dispatchAux pureBeh ev es.length 0 m [] =
      (m, (aliveIds (entriesOf m ev.type)).map (fun h => (h, ev)), false)
    rw [dispatchAux_pure ev es.length 0 m [], hes]
    simp [aliveIds, List.map_map, List.take_length, Function.comp]

/-! ### Registration: what a sequence of `on` calls builds -/

lemma entriesOf_busOn (m : Bus) (t : String) (h : Nat) (t' : String) :
    entriesOf (busOn m t h) t' =
      if t' = t then setAdd (entriesOf m t) h else entriesOf m t' := by
  cases hg : getEntries m t with
  | some es =>
    by_cases ht : t' = t
    · subst ht
      rw [if_pos rfl]
      simp only [busOn, hg, Option.isSome_some, if_true]
      rw [entriesOf_setEntries_self]
    · rw [if_neg ht]
      simp only [busOn, hg, Option.isSome_some, if_true]
      rw [entriesOf_setEntries_other _ _ _ _ ht]
  | none =>
    have hemp : entriesOf m t = [] := by unfold entriesOf; rw [hg]; rfl
    by_cases ht : t' = t
    · subst ht
      rw [if_pos rfl]
      simp only [busOn, hg, Option.isSome_none, Bool.false_eq_true, if_false]
      rw [entriesOf_setEntries_self, entriesOf_setEntries_self, hemp]
    · rw [if_neg ht]
      simp only [busOn, hg, Option.isSome_none, Bool.false_eq_true, if_false]
      rw [entriesOf_setEntries_other _ _ _ _ ht,
        entriesOf_setEntries_other _ _ _ _ ht]

lemma entriesOf_buildBus_aux (regs : List (String × Nat)) :
    ∀ (m : Bus) (t : String),
      entriesOf (regs.foldl (fun m r => busOn m r.1 r.2) m) t =
        (regIds regs t).foldl setAdd (entriesOf m t) := by
  induction regs with
  | nil => intro m t; rfl
  | cons r rest ih =>
    intro m t
    rw [List.foldl_cons, ih (busOn m r.1 r.2) t]
    by_cases hrt : r.1 = t
    · subst hrt
      have hreg : regIds (r :: rest) r.1 = r.2 :: regIds rest r.1 := by
        simp [regIds, List.filter_cons]
      rw [hreg, List.foldl_cons, entriesOf_busOn, if_pos rfl]
    · have hreg : regIds (r :: rest) t = regIds rest t := by
        have : (r.1 == t) = false := by
          simpa [beq_eq_false_iff_ne] using hrt
        simp [regIds, List.filter_cons, this]
      rw [hreg, entriesOf_busOn, if_neg (fun hc => hrt hc.symm)]

lemma liveMem_map_true (L : List Nat) (x : Nat) :
    liveMem (L.map (fun h => (h, true))) x = true ↔ x ∈ L := by
  simp [liveMem, List.any_eq_true, beq_iff_eq]

lemma firstDedupAux_cons (seen : List Nat) (h : Nat) (t : List Nat) :
    firstDedupAux seen (h :: t) =
      if h ∈ seen then firstDedupAux seen t
      else h :: firstDedupAux (h :: seen) t := rfl

lemma firstDedupAux_congr (l : List Nat) :
    ∀ (s₁ s₂ : List Nat), (∀ x, x ∈ s₁ ↔ x ∈ s₂) →
      firstDedupAux s₁ l = firstDedupAux s₂ l := by
  induction l with
  | nil => intro s₁ s₂ _; rfl
  | cons h t ih =>
    intro s₁ s₂ hs
    unfold firstDedupAux
    by_cases hm : h ∈ s₁
    · rw [if_pos hm, if_pos ((hs h).mp hm)]
      exact ih s₁ s₂ hs
    · rw [if_neg hm, if_neg (fun hc => hm ((hs h).mpr hc))]
      refine congrArg (h :: ·) ?_
      refine ih (h :: s₁) (h :: s₂) ?_
      intro x
      simp [List.mem_cons, hs x]

lemma foldl_setAdd_live (hs : List Nat) :
    ∀ (L : List Nat),
      hs.foldl setAdd (L.map (fun h => (h, true))) =
        (L ++ firstDedupAux L hs).map (fun h => (h, true)) := by
  induction hs with
  | nil => intro L; simp [firstDedupAux]
  | cons h rest ih =>
    intro L
    rw [List.foldl_cons]
    by_cases hmem : h ∈ L
    · have hlive : liveMem (L.map (fun h => (h, true))) h = true :=
        (liveMem_map_true L h).mpr hmem
      have hadd : setAdd (L.map (fun h => (h, true))) h =
          L.map (fun h => (h, true)) := by
        unfold setAdd; rw [if_pos hlive]
      have hfd : firstDedupAux L (h :: rest) = firstDedupAux L rest := by
        rw [firstDedupAux_cons, if_pos hmem]
      rw [hadd, ih L, hfd]
    · have hlive : liveMem (L.map (fun h => (h, true))) h = false := by
        cases hl : liveMem (L.map (fun h => (h, true))) h with
        | false => rfl
        | true => exact absurd ((liveMem_map_true L h).mp hl) hmem
      have hadd : setAdd (L.map (fun h => (h, true))) h =
          (L ++ [h]).map (fun h => (h, true)) := by
        unfold setAdd
        rw [if_neg (by simp [hlive]), List.map_append]
        rfl
      have hfd : firstDedupAux L (h :: rest) =
          h :: firstDedupAux (h :: L) rest := by
        rw [firstDedupAux_cons, if_neg hmem]
      rw [hadd, ih (L ++ [h]), hfd]
      have hcongr : firstDedupAux (L ++ [h]) rest =
          firstDedupAux (h :: L) rest := by
        refine firstDedupAux_congr rest (L ++ [h]) (h :: L) ?_
        intro x
        simp [List.mem_append, List.mem_cons, or_comm]
      rw [hcongr]
      simp

lemma entriesOf_buildBus (regs : List (String × Nat)) (t : String) :
    entriesOf (buildBus regs) t =
      (firstDedup (regIds regs t)).map (fun h => (h, true)) := by
  unfold buildBus firstDedup
  rw [entriesOf_buildBus_aux regs [] t]
  have hinit : entriesOf ([] : Bus) t =
      ([] : List Nat).map (fun h => (h, true)) := rfl
  rw [hinit, foldl_setAdd_live]
  simp

lemma aliveIds_map_true (L : List Nat) :
    aliveIds (L.map (fun h => (h, true))) = L := by
  induction L with
  | nil => rfl
  | cons h rest ih => simp [aliveIds, List.filter_cons] at ih ⊢; exact ih

lemma mem_firstDedupAux (l : List Nat) :
    ∀ (seen : List Nat) (x : Nat),
      x ∈ firstDedupAux seen l ↔ (x ∈ l ∧ x ∉ seen) := by
  induction l with
  | nil => intro seen x; simp [firstDedupAux]
  | cons h t ih =>
    intro seen x
    unfold firstDedupAux
    by_cases hm : h ∈ seen
    · rw [if_pos hm, ih seen x]
      constructor
      · rintro ⟨hx, hns⟩; exact ⟨List.mem_cons_of_mem h hx, hns⟩
      · rintro ⟨hx, hns⟩
        rcases List.mem_cons.mp hx with hxe | hxt
        · exact absurd (hxe ▸ hm) hns
        · exact ⟨hxt, hns⟩
    · rw [if_neg hm]
      constructor
      · intro hx
        rcases List.mem_cons.mp hx with hxe | hxt
        · exact ⟨hxe ▸ List.mem_cons_self h t, hxe ▸ hm⟩
        · obtain ⟨h1, h2⟩ := (ih (h :: seen) x).mp hxt
          have hxne : x ≠ h := fun hc => h2 (hc ▸ List.mem_cons_self h seen)
          exact ⟨List.mem_cons_of_mem h h1,
            fun hc => h2 (List.mem_cons_of_mem h hc)⟩
      · rintro ⟨hx, hns⟩
        by_cases hxe : x = h
        · exact hxe ▸ List.mem_cons_self h _
        · rcases List.mem_cons.mp hx with hc | hxt
          · exact absurd hc hxe
          · refine List.mem_cons_of_mem h ((ih (h :: seen) x).mpr ⟨hxt, ?_⟩)
            intro hc
            rcases List.mem_cons.mp hc with hc₁ | hc₂
            · exact hxe hc₁
            · exact hns hc₂

lemma nodup_firstDedupAux (l : List Nat) :
    ∀ seen : List Nat, (firstDedupAux seen l).Nodup := by
  induction l with
  | nil => intro seen; exact List.nodup_nil
  | cons h t ih =>
    intro seen
    unfold firstDedupAux
    by_cases hm : h ∈ seen
    · rw [if_pos hm]; exact ih seen
    · rw [if_neg hm]
      refine List.nodup_cons.mpr ⟨?_, ih (h :: seen)⟩
      intro hc
      exact ((mem_firstDedupAux t (h :: seen) h).mp hc).2
        (List.mem_cons_self h seen)

lemma regIds_cons (r : String × Nat) (rest : List (String × Nat))
    (t : String) :
    regIds (r :: rest) t =
      if r.1 == t then r.2 :: regIds rest t else regIds rest t := by
  cases hb : r.1 == t with
  | true => simp [regIds, List.filter_cons, hb]
  | false => simp [regIds, List.filter_cons, hb]

lemma mem_regIds (regs : List (String × Nat)) (t : String) (h : Nat) :
    h ∈ regIds regs t ↔ (t, h) ∈ regs := by
  induction regs with
  | nil => simp [regIds]
  | cons r rest ih =>
    obtain ⟨a, b⟩ := r
    rw [regIds_cons]
    by_cases hrt : a = t
    · subst hrt
      rw [if_pos (by simp)]
      simp only [List.mem_cons, ih, Prod.mk.injEq]
      constructor
      · rintro (hh | hh)
        · exact Or.inl ⟨trivial, hh⟩
        · exact Or.inr hh
      · rintro (⟨_, hh⟩ | hh)
        · exact Or.inl hh
        · exact Or.inr hh
    · rw [if_neg (by simp [beq_iff_eq, hrt])]
      rw [ih]
      constructor
      · exact fun hh => List.mem_cons_of_mem _ hh
      · intro hh
        rcases List.mem_cons.mp hh with hc | hc
        · exact absurd (congrArg Prod.fst hc).symm hrt
        · exact hc

lemma liveMem_iff_mem_aliveIds (es : EntryList) (x : Nat) :
    liveMem es x = true ↔ x ∈ aliveIds es := by
  simp only [liveMem, aliveIds, List.any_eq_true, List.mem_map,
    List.mem_filter, Bool.and_eq_true, beq_iff_eq]
  constructor
  · rintro ⟨e, he, h1, h2⟩
    exact ⟨e, ⟨he, h2⟩, h1⟩
  · rintro ⟨e, ⟨he, h2⟩, h1⟩
    exact ⟨e, he, h1, h2⟩

/-- Claim C6: with handlers that do not mutate the bus, `emit` on a bus built
by a sequence of `on(type, handler)` registrations invokes exactly the
handlers registered for the event's type, in their registration order
(first registration wins for duplicates, as for a JavaScript `Set`). -/
theorem emit_invokes_in_registration_order (regs : List (String × Nat))
    (ev : PanelEvent) :
    ((busEmit pureBeh (buildBus regs) ev).2.1).map Prod.fst =
      firstDedup (regIds regs ev.type) := by
  have hlog : (busEmit pureBeh (buildBus regs) ev).2.1 =
      (firstDedup (regIds regs ev.type)).map (fun x => (x, ev)) := by
    rw [busEmit_pure, entriesOf_buildBus, aliveIds_map_true]
  rw [hlog, List.map_map]
  rw [show (Prod.fst ∘ fun x : Nat => (x, ev)) = id from rfl, List.map_id]

/-- Claim C5: on a bus built by a sequence of `on(type, handler)`
registrations, with handlers that do not mutate the bus, one `emit(event)`
invokes a handler registered for `event.type` exactly once, with exactly the
emitted event, and never invokes a handler not registered for `event.type`
(counts are `0` for such handlers — no cross-type leakage). -/
theorem emit_delivers_exactly_once (regs : List (String × Nat))
    (ev : PanelEvent) (h : Nat) :
    ((busEmit pureBeh (buildBus regs) ev).2.1).count (h, ev) =
      (if (ev.type, h) ∈ regs then 1 else 0) ∧
    ((busEmit pureBeh (buildBus regs) ev).2.1).countP (fun p => p.1 == h) =
      (if (ev.type, h) ∈ regs then 1 else 0) ∧
    ((busEmit pureBeh (buildBus regs) ev).2.1).all
      (fun p => p.2 == ev) = true := by
  have hlog : (busEmit pureBeh (buildBus regs) ev).2.1 =
      (firstDedup (regIds regs ev.type)).map (fun x => (x, ev)) := by
    rw [busEmit_pure, entriesOf_buildBus, aliveIds_map_true]
  rw [hlog]
  have hnd : (firstDedup (regIds regs ev.type)).Nodup :=
    nodup_firstDedupAux _ []
  have hmem : h ∈ firstDedup (regIds regs ev.type) ↔ (ev.type, h) ∈ regs := by
    unfold firstDedup
    rw [mem_firstDedupAux]
    simp [mem_regIds]
  have hcount : (firstDedup (regIds regs ev.type)).count h =
      if (ev.type, h) ∈ regs then 1 else 0 := by
    by_cases hin : (ev.type, h) ∈ regs
    · rw [if_pos hin]
      exact List.count_eq_one_of_mem hnd (hmem.mpr hin)
    · rw [if_neg hin]
      exact List.count_eq_zero.mpr (fun hc => hin (hmem.mp hc))
  refine ⟨?_, ?_, ?_⟩
  · rw [show List.count (h, ev)
          ((firstDedup (regIds regs ev.type)).map (fun x : Nat => (x, ev))) =
        List.countP (fun p => p == (h, ev))
          ((firstDedup (regIds regs ev.type)).map (fun x : Nat => (x, ev)))
        from rfl]
    rw [List.countP_map]
    have h2 : ((fun p : Nat × PanelEvent => p == (h, ev)) ∘
        fun x : Nat => (x, ev)) = fun x : Nat => x == h := by
      funext x
      show ((x, ev) == (h, ev)) = (x == h)
      rw [show ((x, ev) == (h, ev)) = (x == h && ev == ev) from rfl,
        beq_self_eq_true, Bool.and_true]
    rw [h2]
    exact hcount
  · rw [List.countP_map]
    rw [show ((fun p : Nat × PanelEvent => p.1 == h) ∘ fun x : Nat =>
      (x, ev)) = (fun x : Nat => x == h) from rfl]
    rw [show (firstDedup (regIds regs ev.type)).countP
      (fun x : Nat => x == h) =
      (firstDedup (regIds regs ev.type)).count h from rfl]
    exact hcount
  · rw [List.all_eq_true]
    intro p hp
    obtain ⟨x, _, hx⟩ := List.mem_map.mp hp
    rw [← hx]
    simp

/-- Claim C7: the unsubscribe capability returned by `on(type, handler)`
(which runs the same deletion as `off(type, handler)`) removes exactly that
registration — every other (type, handler) registration keeps its
subscription state — calling it twice equals calling it once, and after the
removal an `emit` of that type never invokes the removed handler. -/
theorem unsubscribe_removes_exactly_once (m : Bus) (t : String) (h : Nat) :
    busOff (busOff m t h) t h = busOff m t h ∧
    (∀ (t' : String) (x : Nat),
      aliveAt (busOff m t h) t' x =
        (aliveAt m t' x && !(t' == t && x == h))) ∧
    (∀ ev : PanelEvent,
      ((busEmit pureBeh (busOff m ev.type h) ev).2.1).countP
        (fun p => p.1 == h) = 0) := by
  refine ⟨busOff_idem m t h, fun t' x => aliveAt_busOff m t h t' x,
    fun ev => ?_⟩
  have hlog : (busEmit pureBeh (busOff m ev.type h) ev).2.1 =
      (aliveIds (setDelete (entriesOf m ev.type) h)).map (fun x => (x, ev)) := by
    rw [busEmit_pure, entriesOf_busOff_self]
  rw [hlog, List.countP_map]
  refine List.countP_eq_zero.mpr ?_
  intro p hp hc
  have hph : p = h := by
    simpa [Function.comp] using hc
  subst hph
  have hlive : liveMem (setDelete (entriesOf m ev.type) p) p = true :=
    (liveMem_iff_mem_aliveIds _ _).mpr hp
  rw [liveMem_setDelete] at hlive
  simp at hlive

/-! ### Evolution of the handler sets during one dispatch pass (towards C3) -/

lemma entryLe_refl (e : Nat × Bool) : entryLe e e := ⟨rfl, fun hh => hh⟩

lemma forall₂_entryLe_refl (es : EntryList) : List.Forall₂ entryLe es es :=
  List.forall₂_same.mpr (fun e _ => entryLe_refl e)

lemma forall₂_entryLe_trans {a b c : EntryList}
    (hab : List.Forall₂ entryLe a b) (hbc : List.Forall₂ entryLe b c) :
    List.Forall₂ entryLe a c := by
  induction hab generalizing c with
  | nil => cases hbc; exact List.Forall₂.nil
  | cons h1 h2 ih =>
    cases hbc with
    | cons h3 h4 =>
      exact List.Forall₂.cons
        ⟨h1.1.trans h3.1, fun hh => h3.2 (h1.2 hh)⟩ (ih h4)

lemma setDelete_evol (es : EntryList) (h : Nat) :
    List.Forall₂ entryLe (setDelete es h) es := by
  induction es with
  | nil => exact List.Forall₂.nil
  | cons e rest ih =>
    have hstep : setDelete (e :: rest) h =
        (if e.1 == h && e.2 then (e.1, false) else e) :: setDelete rest h := by
      simp [setDelete]
    rw [hstep]
    refine List.Forall₂.cons ?_ ih
    cases hc : e.1 == h && e.2 with
    | true => exact ⟨rfl, fun hh => absurd hh Bool.false_ne_true⟩
    | false => exact entryLe_refl e

lemma entriesOf_busOff_evol (m : Bus) (t : String) (h : Nat) (t' : String) :
    List.Forall₂ entryLe (entriesOf (busOff m t h) t') (entriesOf m t') := by
  by_cases ht : t' = t
  · subst ht
    rw [entriesOf_busOff_self]
    exact setDelete_evol _ _
  · rw [entriesOf_busOff_other _ _ _ _ ht]
    exact forall₂_entryLe_refl _

lemma applyOp_evol (m : Bus) (op : BusOp) (t' : String) :
    List.Forall₂ entryLe (entriesOf (applyOp m op) t') (entriesOf m t') := by
  cases op with
  | unsub t h => exact entriesOf_busOff_evol m t h t'

lemma applyOps_evol (ops : List BusOp) :
    ∀ (m : Bus) (t' : String),
      List.Forall₂ entryLe (entriesOf (applyOps m ops) t')
        (entriesOf m t') := by
  induction ops with
  | nil => intro m t'; exact forall₂_entryLe_refl _
  | cons op rest ih =>
    intro m t'
    exact forall₂_entryLe_trans (ih (applyOp m op) t') (applyOp_evol m op t')

lemma dispatchAux_evol (beh : Nat → HandlerBeh) (ev : PanelEvent) :
    ∀ (fuel i : Nat) (m : Bus) (log : List (Nat × PanelEvent)) (t' : String),
      List.Forall₂ entryLe
        (entriesOf (dispatchAux beh ev fuel i m log).1 t')
        (entriesOf m t') := by
  intro fuel
  induction fuel with
  | zero => intro i m log t'; exact forall₂_entryLe_refl _
  | succ fuel ih =>
    intro i m log t'
    cases hi : (entriesOf m ev.type)[i]? with
    | none =>
      simp only [dispatchAux, hi]
      exact forall₂_entryLe_refl _
    | some e =>
      simp only [dispatchAux, hi]
      cases he2 : e.2 with
      | false =>
        simp only [Bool.false_eq_true, if_false]
        exact ih (i + 1) m log t'
      | true =>
        simp only [if_true]
        cases hthrow : (beh e.1).throws with
        | true =>
          simp only [if_true]
          exact applyOps_evol _ m t'
        | false =>
          simp only [Bool.false_eq_true, if_false]
          exact forall₂_entryLe_trans
            (ih (i + 1) (applyOps m (beh e.1).ops) (log ++ [(e.1, ev)]) t')
            (applyOps_evol _ m t')

lemma liveMem_mono {es' es : EntryList}
    (hev : List.Forall₂ entryLe es' es) (x : Nat)
    (h : liveMem es' x = true) : liveMem es x = true := by
  induction hev with
  | nil => simpa using h
  | @cons a' a l' l hle htail ih =>
    rw [liveMem_cons, Bool.or_eq_true] at h
    rw [liveMem_cons, Bool.or_eq_true]
    rcases h with h1 | h2
    · rw [Bool.and_eq_true] at h1
      obtain ⟨hx, hl⟩ := h1
      left
      rw [Bool.and_eq_true]
      refine ⟨?_, hle.2 hl⟩
      rw [← hle.1]
      exact hx
    · right
      exact ih h2

lemma aliveIds_cons (e : Nat × Bool) (rest : EntryList) :
    aliveIds (e :: rest) =
      if e.2 then e.1 :: aliveIds rest else aliveIds rest := by
  cases he : e.2 with
  | true => simp [aliveIds, List.filter_cons, he]
  | false => simp [aliveIds, List.filter_cons, he]

lemma aliveIds_sublist {es' es : EntryList}
    (hev : List.Forall₂ entryLe es' es) :
    (aliveIds es').Sublist (aliveIds es) := by
  induction hev with
  | nil => exact List.Sublist.refl _
  | @cons a' a l' l hle htail ih =>
    rw [aliveIds_cons, aliveIds_cons]
    cases h2' : a'.2 with
    | true =>
      have h2 : a.2 = true := hle.2 h2'
      rw [h2, hle.1]
      simp only [if_true]
      exact List.Sublist.cons₂ a.1 ih
    | false =>
      simp only [Bool.false_eq_true, if_false]
      cases h2 : a.2 with
      | true =>
        simp only [if_true]
        exact List.Sublist.cons a.1 ih
      | false =>
        simp only [Bool.false_eq_true, if_false]
        exact ih

lemma aliveIds_append (a b : EntryList) :
    aliveIds (a ++ b) = aliveIds a ++ aliveIds b := by
  simp [aliveIds, List.filter_append]

lemma not_live_in_take_and_drop (es : EntryList) (n : Nat) (x : Nat)
    (hnd : (aliveIds es).Nodup) (h1 : liveMem (es.take n) x = true)
    (h2 : liveMem (es.drop n) x = true) : False := by
  have hx1 : x ∈ aliveIds (es.take n) := (liveMem_iff_mem_aliveIds _ _).mp h1
  have hx2 : x ∈ aliveIds (es.drop n) := (liveMem_iff_mem_aliveIds _ _).mp h2
  have happ : (aliveIds (es.take n) ++ aliveIds (es.drop n)).Nodup := by
    rw [← aliveIds_append, List.take_append_drop]
    exact hnd
  exact (List.nodup_append.mp happ).2.2 hx1 hx2

lemma liveMem_take_drop (es : EntryList) (n : Nat) (x : Nat) :
    liveMem es x = (liveMem (es.take n) x || liveMem (es.drop n) x) := by
  unfold liveMem
  rw [← List.any_append, List.take_append_drop]

/-! ### Exactly-once delivery under re-entrant unsubscription (C3) -/

lemma dispatch_count (beh : Nat → HandlerBeh) (ev : PanelEvent)
    (hnt : ∀ h, (beh h).throws = false) :
    ∀ (fuel i : Nat) (m : Bus) (log : List (Nat × PanelEvent)) (x : Nat),
      fuel + i = (entriesOf m ev.type).length →
      (aliveIds (entriesOf m ev.type)).Nodup →
      liveMem (entriesOf (dispatchAux beh ev fuel i m log).1 ev.type) x =
        true →
      (dispatchAux beh ev fuel i m log).2.1.count (x, ev) =
        log.count (x, ev) +
          (if liveMem ((entriesOf m ev.type).drop i) x then 1 else 0) := by
  intro fuel
  induction fuel with
  | zero =>
    intro i m log x hlen hnd halive
    have hi : i = (entriesOf m ev.type).length := by omega
    simp only [dispatchAux]
    rw [hi, List.drop_length]
    simp [liveMem]
  | succ fuel ih =>
    intro i m log x hlen hnd halive
    have hlt : i < (entriesOf m ev.type).length := by omega
    cases hi : (entriesOf m ev.type)[i]? with
    | none =>
      rw [List.getElem?_eq_getElem hlt] at hi
      exact Option.noConfusion hi
    | some e =>
      have hget : (entriesOf m ev.type)[i] = e := by
        rw [List.getElem?_eq_getElem hlt] at hi
        exact Option.some_injective _ hi
      have hdrop : (entriesOf m ev.type).drop i =
          e :: (entriesOf m ev.type).drop (i + 1) := by
        rw [List.drop_eq_getElem_cons hlt, hget]
      simp only [dispatchAux, hi] at halive ⊢
      cases he2 : e.2 with
      | false =>
        rw [he2] at halive
        simp only [Bool.false_eq_true, if_false] at halive ⊢
        rw [ih (i + 1) m log x (by omega) hnd halive]
        congr 1
        rw [hdrop, liveMem_cons]
        simp [he2]
      | true =>
        rw [he2] at halive
        simp only [if_true] at halive ⊢
        rw [hnt e.1] at halive ⊢
        simp only [Bool.false_eq_true, if_false] at halive ⊢
        have hev₁ : List.Forall₂ entryLe
            (entriesOf (applyOps m (beh e.1).ops) ev.type)
            (entriesOf m ev.type) := applyOps_evol _ m ev.type
        have hlen₁ :
            (entriesOf (applyOps m (beh e.1).ops) ev.type).length =
              (entriesOf m ev.type).length := hev₁.length_eq
        have hnd₁ :
            (aliveIds (entriesOf (applyOps m (beh e.1).ops) ev.type)).Nodup :=
          List.Nodup.sublist (aliveIds_sublist hev₁) hnd
        rw [ih (i + 1) (applyOps m (beh e.1).ops) (log ++ [(e.1, ev)]) x
          (by omega) hnd₁ halive]
        by_cases hx : e.1 = x
        · subst hx
          have hnotlive : liveMem
              ((entriesOf (applyOps m (beh e.1).ops) ev.type).drop (i + 1))
              e.1 = false := by
            cases hl : liveMem
                ((entriesOf (applyOps m (beh e.1).ops) ev.type).drop (i + 1))
                e.1 with
            | false => rfl
            | true =>
              exfalso
              have hmem : liveMem ((entriesOf m ev.type).drop (i + 1)) e.1 =
                  true :=
                liveMem_mono (List.forall₂_drop (i + 1) hev₁) e.1 hl
              have hnddrop :
                  (aliveIds ((entriesOf m ev.type).drop i)).Nodup := by
                have hnd' := hnd
                rw [← List.take_append_drop i (entriesOf m ev.type),
                  aliveIds_append] at hnd'
                exact (List.nodup_append.mp hnd').2.1
              rw [hdrop, aliveIds_cons, if_pos he2] at hnddrop
              exact (List.nodup_cons.mp hnddrop).1
                ((liveMem_iff_mem_aliveIds _ _).mp hmem)
          rw [hnotlive, List.count_append]
          rw [hdrop, liveMem_cons]
          simp [he2]
        · have hex : (e.1 == x) = false := beq_eq_false_iff_ne.mpr hx
          have hcond : liveMem
              ((entriesOf (applyOps m (beh e.1).ops) ev.type).drop (i + 1))
              x = liveMem ((entriesOf m ev.type).drop i) x := by
            rw [hdrop, liveMem_cons, hex]
            simp only [Bool.false_and, Bool.false_or]
            cases hl' : liveMem
                ((entriesOf (applyOps m (beh e.1).ops) ev.type).drop (i + 1))
                x with
            | true =>
              exact (liveMem_mono (List.forall₂_drop (i + 1) hev₁) x hl').symm
            | false =>
              cases hl : liveMem ((entriesOf m ev.type).drop (i + 1)) x with
              | false => rfl
              | true =>
                exfalso
                have halive₁ : liveMem
                    (entriesOf (applyOps m (beh e.1).ops) ev.type) x =
                      true :=
                  liveMem_mono
                    (dispatchAux_evol beh ev fuel (i + 1)
                      (applyOps m (beh e.1).ops) (log ++ [(e.1, ev)]) ev.type)
                    x halive
                rw [liveMem_take_drop _ (i + 1) x, Bool.or_eq_true]
                  at halive₁
                rcases halive₁ with htk | hdr
                · have htk' : liveMem
                      ((entriesOf m ev.type).take (i + 1)) x = true :=
                    liveMem_mono (List.forall₂_take (i + 1) hev₁) x htk
                  exact not_live_in_take_and_drop _ (i + 1) x hnd htk' hl
                · rw [hdr] at hl'
                  simp at hl'
          rw [hcond, List.count_append]
          have hsing0 : List.count (x, ev) [(e.1, ev)] = 0 := by
            rw [List.count_cons, List.count_nil]
            rw [show (((e.1, ev) : Nat × PanelEvent) == (x, ev)) =
              (e.1 == x && ev == ev) from rfl]
            rw [hex]
            simp
          rw [hsing0]
          omega

/-- Claim C3: during one `emit(event)` dispatch pass, with handlers that may
unsubscribe any handlers (themselves included) but do not throw, every
handler that was subscribed to `event.type` at the start of the pass and is
still subscribed at its end is invoked exactly once with the event — no
skipped and no double invocation.  (A handler set built through `on` never
holds duplicate live registrations, which the `Nodup` hypothesis records.) -/
theorem unsub_during_dispatch_exactly_once (beh : Nat → HandlerBeh)
    (m : Bus) (ev : PanelEvent) (x : Nat)
    (hnt : ∀ h, (beh h).throws = false)
    (hnd : (aliveIds (entriesOf m ev.type)).Nodup)
    (hstart : aliveAt m ev.type x = true)
    (hend : aliveAt (busEmit beh m ev).1 ev.type x = true) :
    ((busEmit beh m ev).2.1).count (x, ev) = 1 := by
  cases hg : getEntries m ev.type with
  | none =>
    exfalso
    unfold aliveAt at hstart
    rw [show entriesOf m ev.type = [] from by
      unfold entriesOf; rw [hg]; rfl] at hstart
    simp [liveMem] at hstart
  | some es =>
    have hbus : busEmit beh m ev = dispatchAux beh ev es.length 0 m [] := by
      unfold busEmit; rw [hg]
    have hes : entriesOf m ev.type = es := by unfold entriesOf; rw [hg]; rfl
    rw [hbus] at hend ⊢
    unfold aliveAt at hend hstart
    rw [dispatch_count beh ev hnt es.length 0 m [] x
      (by rw [hes]; omega) hnd hend]
    rw [List.drop_zero, hstart]
    simp

/-- Witness for C3 at a concrete input: handlers 1, 2, 3 subscribed to
`"t"`, handler 1 unsubscribes handler 3 during dispatch; handler 2 is still
subscribed afterwards and was invoked exactly once. -/
theorem unsub_during_dispatch_exactly_once_witness :
    ((busEmit unsubbing₁ bus₁₂₃ evT).2.1).count (2, evT) = 1 :=
  unsub_during_dispatch_exactly_once unsubbing₁ bus₁₂₃ evT 2
    (fun _ => rfl) (by decide) (by decide) (by decide)

end MarkdownPanels
